import Mathlib

/-!
# directorywatcher: a shallow embedding of `main.go`

The program polls a list of directories, collects one `FileInfo` per entry met by
`filepath.Walk`, and logs every entry at info level and every entry that is too old at
error level.  The embedding keeps the control flow of `main.go`:

* the data model (`FileInfo`, the flag variables of `main` as `Config`);
* a process monad `Proc` that records the observable actions of the program (logger
  calls, walks, sleeps, output on stdout) and stops at `os.Exit` or at a Go panic;
* `visit`, the start-up part of `main`, the scan loop and the polling loop;
* the integer and float64 arithmetic behind `Age` and behind the sleep duration.
-/

namespace DirectoryWatcher

/-! ## Data model -/

/-- Severity levels of the logging library, in its order: a smaller number is more severe. -/
inductive Level where
  | PanicLevel
  | FatalLevel
  | ErrorLevel
  | WarnLevel
  | InfoLevel
  | DebugLevel
  | TraceLevel
  deriving DecidableEq, Repr

/-- Numeric value of a level in the logging library (`PanicLevel` is 0). -/
def Level.toNat : Level → Nat
  | .PanicLevel => 0
  | .FatalLevel => 1
  | .ErrorLevel => 2
  | .WarnLevel => 3
  | .InfoLevel => 4
  | .DebugLevel => 5
  | .TraceLevel => 6

/-- Severity comparison: `a.atLeast b` when `a` is at least as severe as `b`. -/
def Level.atLeast (a b : Level) : Bool := decide (a.toNat ≤ b.toNat)

/-- The struct `FileInfo` of `main.go`; `Size` is an int64, `Age` a uint64 (seconds), and
the instant `ModTime` of type `time.Time` is given in wall-clock nanoseconds since the
Unix epoch. -/
structure FileInfo where
  Name : String
  FullName : String
  Size : Int
  Mode : String
  ModTime : Int
  IsDir : Bool
  Age : Nat
  deriving DecidableEq, Repr

/-- The flag variables declared at the top of `main`, after `flag.Parse()`;
`args` is `flag.Args()`, `poll` and `maxAge` are uint64 values. -/
structure Config where
  poll : Nat
  maxAge : Nat
  logLevel : String
  ageWarning : String
  slackWarnLevel : String
  slackWebhook : String
  slackChannel : String
  slackIcon : String
  args : List String
  folder : String
  ignoreFolders : Bool
  deriving DecidableEq, Repr

/-- A value stored in the fields of a log record. -/
inductive FieldValue where
  | str (s : String)
  | time (t : Int)
  deriving DecidableEq, Repr

/-- A record handed to the logger: `log.WithFields(fields).<Level>(message)`. -/
structure LogEntry where
  level : Level
  fields : List (String × FieldValue)
  message : String
  deriving DecidableEq, Repr

/-- The observable actions of the process, in program order. -/
inductive Action where
  | log (e : LogEntry)
  | usage
  | stdout (s : String)
  | walk (root : String)
  | sleep (nanoseconds : Int)
  deriving DecidableEq, Repr

/-- How the process ends: `os.Exit(code)`, or a Go panic that nothing recovers. -/
inductive Outcome where
  | exited (code : Nat)
  | panicked (msg : String)
  deriving DecidableEq, Repr

/-- Exit status of the process: the code given to `os.Exit`, and 2 for a Go panic that
is not recovered (the Go runtime prints the panic and exits with status 2). -/
def Outcome.status : Outcome → Nat
  | .exited code => code
  | .panicked _ => 2

/-! ## The process monad -/

/-- A run of a piece of the program: the actions it performed and either the value it
returned (`ok`) or the way the process ended inside it (`error`). -/
structure Proc (α : Type) where
  trace : List Action
  result : Except Outcome α

/-- Return without any action. -/
def Proc.pure {α : Type} (a : α) : Proc α := ⟨[], .ok a⟩

/-- Sequencing: nothing of the continuation runs once the process has ended. -/
def Proc.bind {α β : Type} (m : Proc α) (f : α → Proc β) : Proc β :=
  match m.result with
  | .error o => ⟨m.trace, .error o⟩
  | .ok a => ⟨m.trace ++ (f a).trace, (f a).result⟩

instance : Monad Proc where
  pure := Proc.pure
  bind := Proc.bind

/-- Perform one action and go on. -/
def act (a : Action) : Proc Unit := ⟨[a], .ok ()⟩

/-- The call `os.Exit(code)`: the process ends here. -/
def osExit {α : Type} (code : Nat) : Proc α := ⟨[], .error (.exited code)⟩

/-- The logger call `log.WithFields(fields).Info(msg)`. -/
def logInfo (fields : List (String × FieldValue)) (msg : String) : Proc Unit :=
  act (.log ⟨.InfoLevel, fields, msg⟩)

/-- The logger call `log.WithFields(fields).Error(msg)`. -/
def logError (fields : List (String × FieldValue)) (msg : String) : Proc Unit :=
  act (.log ⟨.ErrorLevel, fields, msg⟩)

/-- The logger call `log.WithFields(fields).Fatal(msg)`: the record is handed to the
logger, then the logger calls `os.Exit(1)`. -/
def logFatal {α : Type} (fields : List (String × FieldValue)) (msg : String) : Proc α :=
  ⟨[.log ⟨.FatalLevel, fields, msg⟩], .error (.exited 1)⟩

/-- The logger call `log.WithFields(fields).Panic(msg)`: the record is handed to the
logger, then the logger panics; the call never returns. -/
def logPanic {α : Type} (fields : List (String × FieldValue)) (msg : String) : Proc α :=
  ⟨[.log ⟨.PanicLevel, fields, msg⟩], .error (.panicked msg)⟩

/-- The log records of a trace, in order. -/
def logEntries : List Action → List LogEntry
  | [] => []
  | .log e :: rest => e :: logEntries rest
  | _ :: rest => logEntries rest

/-- The roots on which `filepath.Walk` was called in a trace, in order. -/
def walked : List Action → List String
  | [] => []
  | .walk root :: rest => root :: walked rest
  | _ :: rest => walked rest

/-! ## Integer arithmetic of the sleep duration (`main.go`, line 162) -/

/-- The value of `time.Second`, in nanoseconds. -/
def Second : Int := 1000000000

/-- Two's complement reading of an integer as an int64: the result of a Go conversion to
int64 and of int64 arithmetic, which wraps around silently. -/
def wrapInt64 (x : Int) : Int := (x + 2 ^ 63) % 2 ^ 64 - 2 ^ 63

/-- The expression `time.Duration(poll) * time.Second`: the uint64 `poll` is converted to
the int64 type `Duration`, then multiplied in int64. -/
def sleepDuration (poll : Nat) : Int := wrapInt64 (wrapInt64 (Int.ofNat poll) * Second)

/-! ## The arithmetic of `Age` (`main.go`, line 37)

`uint64(time.Now().Sub(info.ModTime()).Seconds())` subtracts two instants into an int64
`Duration`, turns it into a float64 number of seconds and converts that to uint64.  A
float64 is represented by the rational it denotes; every float64 operation is the exact
operation followed by rounding to the nearest float64, ties to even. -/

/-- Largest `Duration`, `1<<63 - 1` nanoseconds. -/
def maxDuration : Int := 2 ^ 63 - 1

/-- Smallest `Duration`, `-1 << 63` nanoseconds. -/
def minDuration : Int := -(2 ^ 63)

/-- The method `Time.Sub` on wall-clock instants: the difference `t - u`, which saturates at
the largest and smallest `Duration` when it does not fit. -/
def Sub (t u : Int) : Int :=
  if t - u > maxDuration then maxDuration
  else if t - u < minDuration then minDuration
  else t - u

/-- A non-negative rational `num / den` with `den > 0`, not necessarily in lowest terms. -/
structure Frac where
  num : Nat
  den : Nat
  deriving DecidableEq, Repr

/-- Nearest integer to `n / d`, ties to the even one. -/
def roundHalfEven (n d : Nat) : Nat :=
  let q := n / d
  let r := n % d
  if 2 * r < d then q
  else if d < 2 * r then q + 1
  else if q % 2 = 0 then q else q + 1

/-- Search for the least `t` from the given start with `2^52 ≤ x * 2^t`, giving up after
`fuel` steps: with start 0 and fuel 1074 this is the number of fraction bits of the
float64 nearest to `x < 2^53` (1074 is the finest unit, that of the subnormals). -/
def upShift (x : Frac) : Nat → Nat → Nat
  | 0, t => t
  | fuel + 1, t => if x.den * 2 ^ 52 ≤ x.num * 2 ^ t then t else upShift x fuel (t + 1)

/-- Search for the least `s` from the given start with `x < 2^(53+s)`: for `x ≥ 2^53` the
float64 values near `x` are the multiples of `2^s`. -/
def downShift (x : Frac) : Nat → Nat → Nat
  | 0, s => s
  | fuel + 1, s => if x.num < x.den * 2 ^ (53 + s) then s else downShift x fuel (s + 1)

/-- Rounding of a non-negative rational to the nearest float64 (53 significant bits, ties
to even); the values met here are far below the overflow threshold `2^1024`. -/
def roundF64 (x : Frac) : Frac :=
  if x.num = 0 then ⟨0, 1⟩
  else if x.num < x.den * 2 ^ 53 then
    let t := upShift x 1074 0
    ⟨roundHalfEven (x.num * 2 ^ t) x.den, 2 ^ t⟩
  else
    let s := downShift x 971 1
    ⟨roundHalfEven x.num (x.den * 2 ^ s) * 2 ^ s, 1⟩

/-- The conversion `float64(n)` of a non-negative integer. -/
def f64ofNat (n : Nat) : Frac := roundF64 ⟨n, 1⟩

/-- The float64 quotient `a / b`. -/
def f64div (a b : Frac) : Frac := roundF64 ⟨a.num * b.den, a.den * b.num⟩

/-- The float64 sum `a + b`. -/
def f64add (a b : Frac) : Frac := roundF64 ⟨a.num * b.den + b.num * a.den, a.den * b.den⟩

/-- The method `Duration.Seconds` on a duration of `d ≥ 0` nanoseconds:
`sec := d / Second; nsec := d % Second; return float64(sec) + float64(nsec)/1e9`. -/
def Seconds (d : Nat) : Frac :=
  f64add (f64ofNat (d / 1000000000))
    (f64div (f64ofNat (d % 1000000000)) (f64ofNat 1000000000))

/-- Integer part of a non-negative float64: conversion to an integer discards the fraction. -/
def trunc (x : Frac) : Nat := x.num / x.den

/-- The expression `uint64(now.Sub(modTime).Seconds())`.  For a negative duration `Seconds`
is the negated value of the opposite duration; the conversion of a float64 in `(-1, 0]`
gives 0, and that of a float64 `≤ -1` is left to the implementation by the Go
specification: `outOfRange` stands for what the platform returns then. -/
def ageSeconds (now modTime : Int) (outOfRange : Nat) : Nat :=
  let d := Sub now modTime
  let whole := trunc (Seconds d.natAbs)
  if 0 ≤ d then whole
  else if whole = 0 then 0
  else outOfRange

/-! ## The emission loop (`main.go`, lines 146-161) -/

/-- The three fields of the records built in the emission loop. -/
def fileFields (file : FileInfo) : List (String × FieldValue) :=
  [("filename", .str file.FullName), ("mode", .str file.Mode), ("ModTime", .time file.ModTime)]

/-- Body of the loop `for _, file := range files`. -/
def emitFile (cfg : Config) (file : FileInfo) : Proc Unit := do
  logInfo (fileFields file) ""
  if file.Age > cfg.maxAge then
    if !(file.IsDir && cfg.ignoreFolders) then
      logError (fileFields file) cfg.ageWarning

/-- The loop `for _, file := range files`. -/
def emitAll (cfg : Config) : List FileInfo → Proc Unit
  | [] => pure ()
  | file :: rest => do
    emitFile cfg file
    emitAll cfg rest

/-! ## The tree walk (`main.go`, lines 26-43 and 138) -/

/-- The value of type `os.FileInfo` handed to the walk function, read through the
methods that `visit` calls; `Mode` is `info.Mode().String()`. -/
structure OsFileInfo where
  Name : String
  Size : Int
  Mode : String
  ModTime : Int
  IsDir : Bool
  deriving DecidableEq, Repr

/-- One call that `filepath.Walk` makes to its walk function: the arguments `path`,
`info` and `err` (`none` is nil, `some e` an error with text `e`; `info` is not read
when `err` is set), together with what the call reads from the platform: `now`, the
value of `time.Now()`, and `outOfRange`, see `ageSeconds`. -/
structure WalkCall where
  path : String
  info : OsFileInfo
  err : Option String
  now : Int
  outOfRange : Nat
  deriving DecidableEq, Repr

/-- The `FileInfo` literal built by `visit`. -/
def mkFileInfo (c : WalkCall) : FileInfo :=
  { Name := c.info.Name
    FullName := c.path
    Size := c.info.Size
    Mode := c.info.Mode
    ModTime := c.info.ModTime
    Age := ageSeconds c.now c.info.ModTime c.outOfRange
    IsDir := c.info.IsDir }

/-- The closure returned by `visit(&files)`, applied to one call: `files` is the slice
behind the pointer, and the result is the error returned to `filepath.Walk` together
with the slice after the call. -/
def visit (files : List FileInfo) (c : WalkCall) : Proc (Option String × List FileInfo) := do
  match c.err with
  | some e => logFatal [] e
  | none => pure ()
  let result := mkFileInfo c
  pure (none, files ++ [result])

/-- The calls of one walk, handed to the walk function `fn` one after the other:
`filepath.Walk` stops at the first call for which `fn` returns an error and returns it. -/
def walkCalls (fn : List FileInfo → WalkCall → Proc (Option String × List FileInfo)) :
    List WalkCall → List FileInfo → Proc (Option String × List FileInfo)
  | [], files => pure (none, files)
  | c :: rest, files => do
    let (err, files) ← fn files c
    match err with
    | some e => pure (some e, files)
    | none => walkCalls fn rest files

/-- The call `filepath.Walk(root, fn)`, where `calls` are the calls this walk makes to
`fn` for as long as `fn` returns nil. -/
def Walk (root : String) (calls : List WalkCall)
    (fn : List FileInfo → WalkCall → Proc (Option String × List FileInfo))
    (files : List FileInfo) : Proc (Option String × List FileInfo) := do
  act (.walk root)
  walkCalls fn calls files

/-! ## The scan loop and the polling loop (`main.go`, lines 135-163) -/

/-- What the file system shows during one cycle: the calls made by the walk of the
`i`-th configured root, `path`. -/
abbrev CycleEnv := Nat → String → List WalkCall

/-- The loop `for _, path := range folders` walking the roots from index `i` on. -/
def scanRoots (env : CycleEnv) : Nat → List String → List FileInfo → Proc (List FileInfo)
  | _, [], files => pure files
  | i, path :: rest, files => do
    let (err, files) ← Walk path (env i path) visit files
    match err with
    | some e =>
      logPanic [("path", .str path), ("err", .str e)] "Unable to walk through directory!"
    | none => pure ()
    scanRoots env (i + 1) rest files

/-- One iteration of the outer `for` loop: `var files []FileInfo`, the walks, the
emission loop and `time.Sleep`. -/
def cycle (cfg : Config) (env : CycleEnv) (folders : List String) : Proc Unit := do
  let files ← scanRoots env 0 folders []
  emitAll cfg files
  act (.sleep (sleepDuration cfg.poll))

/-- The outer `for` loop from cycle number `c` on, cut after `fuel` cycles: a result
`ok` means that the process is still running after them. -/
def pollLoop (cfg : Config) (world : Nat → CycleEnv) (folders : List String) :
    Nat → Nat → Proc Unit
  | 0, _ => pure ()
  | fuel + 1, c => do
    cycle cfg (world c) folders
    pollLoop cfg world folders fuel (c + 1)

/-! ## Start-up (`main.go`, lines 81-133) -/

/-- A hook of the notification library, with the `MinLevel` of its configuration. -/
structure Hook where
  MinLevel : Level
  deriving DecidableEq, Repr

/-- The state of the standard logger: its level and the hooks added to it. -/
structure Logger where
  Level : Level
  Hooks : List Hook
  deriving DecidableEq, Repr

/-- Lines 81-89: `log.ParseLevel(logLevel)` and `log.SetLevel`.  The parser of the
logging library is the parameter `parse`, `none` standing for its error result. -/
def setLogLevel (parse : String → Option Level) (cfg : Config) : Proc Logger :=
  match parse cfg.logLevel with
  | none => do
    (logPanic [("logLevel", .str cfg.logLevel)] "Invalid log level!" : Proc Unit)
    act .usage
    osExit 99
  | some loglevel => pure { Level := loglevel, Hooks := [] }

/-- Lines 91-109: the hook is configured and added only when `slackWebhook` is set. -/
def addSlackHook (parse : String → Option Level) (cfg : Config) (lg : Logger) : Proc Logger :=
  if cfg.slackWebhook ≠ "" then
    match parse cfg.slackWarnLevel with
    | none => do
      (logPanic [("slackWarnLevel", .str cfg.slackWarnLevel)] "Invalid log level!" : Proc Unit)
      act .usage
      osExit 99
    | some slacklevel => pure { lg with Hooks := lg.Hooks ++ [{ MinLevel := slacklevel }] }
  else pure lg

/-- Lines 111-119: the check for a root and the list `folders`. -/
def collectFolders (cfg : Config) : Proc (List String) := do
  if cfg.args.length = 0 ∧ cfg.folder = "" then
    (logPanic [] "No directory given!" : Proc Unit)
    act .usage
    osExit 1
  let folders := cfg.args
  if cfg.folder ≠ "" then
    pure (folders ++ [cfg.folder])
  else
    pure folders

/-- Lines 81-119 of `main`: the logger and the roots the loop starts with. -/
def startup (parse : String → Option Level) (cfg : Config) : Proc (Logger × List String) := do
  let lg ← setLogLevel parse cfg
  let lg ← addSlackHook parse cfg lg
  let folders ← collectFolders cfg
  pure (lg, folders)

/-- Lines 129-133: the banner printed before the loop. -/
def banner : List String → Proc Unit
  | [] => pure ()
  | path :: rest => do
    act (.stdout ("- " ++ path ++ " \n"))
    banner rest

/-- The function `main` after `flag.Parse()`, with the polling loop cut after `fuel`
cycles.  The goroutine that waits for SIGINT or SIGTERM runs beside this flow and is
not part of it. -/
def main (parse : String → Option Level) (cfg : Config) (world : Nat → CycleEnv)
    (fuel : Nat) : Proc Unit := do
  let (_, folders) ← startup parse cfg
  act (.stdout "Watching the following directories:\n")
  banner folders
  act (.stdout "Press Ctrl+C to end\n")
  pollLoop cfg world folders fuel 0

/-! ## The severity gates of the logger -/

/-- Level gate of the logging library: a record is processed (written, and handed to
the hooks) only when its level is enabled, that is at least as severe as the logger's. -/
def Logger.IsLevelEnabled (lg : Logger) (l : DirectoryWatcher.Level) : Bool := l.atLeast lg.Level

/-- Modelled from the spec: the severity gate of the notification hook, which belongs
to an imported library: the hook fires for the records whose severity is at or above
its `MinLevel`. -/
def Hook.fires (h : Hook) (l : Level) : Bool := l.atLeast h.MinLevel

/-- A record of level `l` given to the logger reaches the notification sink when the
level is enabled and some installed hook fires for it. -/
def Logger.forwards (lg : Logger) (l : DirectoryWatcher.Level) : Bool :=
  lg.IsLevelEnabled l && lg.Hooks.any (fun h => h.fires l)

/-- The level names accepted by the parser of the logging library, compared after
lower-casing as the library does: those of the usage text of `main.go`, and `warning`
and `trace`.  It serves for the concrete runs; the general statements hold for every
parser. -/
def ParseLevel (lvl : String) : Option Level :=
  let name := String.mk (lvl.data.map Char.toLower)
  if name = "panic" then some .PanicLevel
  else if name = "fatal" then some .FatalLevel
  else if name = "error" then some .ErrorLevel
  else if name = "warn" ∨ name = "warning" then some .WarnLevel
  else if name = "info" then some .InfoLevel
  else if name = "debug" then some .DebugLevel
  else if name = "trace" then some .TraceLevel
  else none

/-! ## Notions used in the statements -/

/-- The entry is treated as stale: the body of the emission loop reaches the `Error` call. -/
def reachesError (cfg : Config) (file : FileInfo) : Prop :=
  ∃ e ∈ logEntries (emitFile cfg file).trace, e.level = Level.ErrorLevel

/-- The staleness test of the emission loop, as a boolean. -/
def isStale (cfg : Config) (file : FileInfo) : Bool :=
  decide (cfg.maxAge < file.Age) && !(file.IsDir && cfg.ignoreFolders)

/-- The informational record of an entry. -/
def infoEvent (file : FileInfo) : LogEntry :=
  { level := .InfoLevel, fields := fileFields file, message := "" }

/-- The error record of an entry, with the configured label as message. -/
def errorEvent (cfg : Config) (file : FileInfo) : LogEntry :=
  { level := .ErrorLevel, fields := fileFields file, message := cfg.ageWarning }

/-- The records expected for one entry: the informational one, then the error one when
the entry is stale. -/
def eventsFor (cfg : Config) (file : FileInfo) : List LogEntry :=
  infoEvent file :: (if isStale cfg file then [errorEvent cfg file] else [])

/-- The error of the first call of a walk that reports one, if any. -/
def firstError (calls : List WalkCall) : Option String :=
  calls.findSome? (fun c => c.err)

/-- The entry sequences produced by walking each root, concatenated in the order of the
roots: the `i`-th root contributes one `FileInfo` per call of its walk. -/
def walkEntries (env : CycleEnv) (folders : List String) : List FileInfo :=
  folders.enum.flatMap (fun p => (env p.1 p.2).map mkFileInfo)

/-- The fatal record written by `visit` for an error with text `e`. -/
def fatalEvent (e : String) : LogEntry :=
  { level := .FatalLevel, fields := [], message := e }

/-! ## Sample inputs -/

/-- The default values of the flags, with the single positional argument `/watch`. -/
def sampleConfig : Config :=
  { poll := 60
    maxAge := 1800
    logLevel := "info"
    ageWarning := "File age"
    slackWarnLevel := "error"
    slackWebhook := ""
    slackChannel := "alerts"
    slackIcon := ":ghost:"
    args := ["/watch"]
    folder := ""
    ignoreFolders := true }

/-- A call of the walk function without error, made at second 5000 for an entry modified
at second 1000. -/
def sampleCall (path name : String) (isDir : Bool) : WalkCall :=
  { path := path
    info := { Name := name, Size := 4096, Mode := "-rw-r--r--", ModTime := 1000000000000,
              IsDir := isDir }
    err := none
    now := 5000000000000
    outOfRange := 0 }

/-- A call of the walk function reporting that an entry cannot be read. -/
def failingCall (path : String) : WalkCall :=
  { sampleCall path "" false with err := some ("lstat " ++ path ++ ": permission denied") }

/-- A file system in which every walk meets the root and one old file. -/
def sampleWorld : Nat → CycleEnv :=
  fun _ _ root => [sampleCall root "root" true, sampleCall (root ++ "/old.log") "old.log" false]

/-- A file system in which the walk of `/b` meets an unreadable entry after the root. -/
def failingWorld : Nat → CycleEnv :=
  fun _ _ root =>
    if root = "/b" then [sampleCall root "b" true, failingCall "/b/x", sampleCall "/b/y" "y" false]
    else [sampleCall root "root" true, sampleCall (root ++ "/old.log") "old.log" false]

/-- The flags `/a /b -directory=/c`, the other flags at their defaults. -/
def threeRootConfig : Config :=
  { sampleConfig with args := ["/a", "/b"], folder := "/c" }

/-- A call made 16777216.999999999 seconds after the modification of the entry. -/
def lateCall : WalkCall :=
  { path := "/watch/old.log"
    info := { Name := "old.log", Size := 1, Mode := "-rw-r--r--", ModTime := 0, IsDir := false }
    err := none
    now := 16777216999999999
    outOfRange := 0 }

/-! # Theorems -/

/-! ## The process monad -/

theorem bind_eq {α β : Type} (m : Proc α) (f : α → Proc β) : (m >>= f) = Proc.bind m f := rfl

theorem pure_eq {α : Type} (a : α) : (pure a : Proc α) = Proc.pure a := rfl

/-! ## The emission loop -/

/-- The body of the emission loop never ends the process and hands to the logger
exactly the records of `eventsFor`, and nothing else. -/
theorem emitFile_eq (cfg : Config) (file : FileInfo) :
    emitFile cfg file = ⟨(eventsFor cfg file).map Action.log, .ok ()⟩ := by
  unfold emitFile eventsFor isStale
  by_cases h1 : cfg.maxAge < file.Age <;> cases h2 : file.IsDir <;>
    cases h3 : cfg.ignoreFolders <;>
    simp [h1, bind_eq, pure_eq, Proc.bind, Proc.pure, logInfo, logError, act, infoEvent,
      errorEvent]

theorem emitAll_eq (cfg : Config) (files : List FileInfo) :
    emitAll cfg files = ⟨(files.flatMap (eventsFor cfg)).map Action.log, .ok ()⟩ := by
  induction files with
  | nil => rfl
  | cons file rest ih =>
    simp [emitAll, bind_eq, Proc.bind, emitFile_eq, ih]

theorem logEntries_map_log (es : List LogEntry) : logEntries (es.map Action.log) = es := by
  induction es with
  | nil => rfl
  | cons e rest ih => simp [logEntries, ih]

theorem isStale_iff (cfg : Config) (file : FileInfo) :
    isStale cfg file = true ↔
      (cfg.maxAge < file.Age ∧ ¬ (file.IsDir = true ∧ cfg.ignoreFolders = true)) := by
  unfold isStale
  cases file.IsDir <;> cases cfg.ignoreFolders <;> simp

theorem reachesError_iff_isStale (cfg : Config) (file : FileInfo) :
    reachesError cfg file ↔ isStale cfg file = true := by
  unfold reachesError
  rw [emitFile_eq]
  simp only [logEntries_map_log, eventsFor]
  cases h : isStale cfg file <;> simp [infoEvent, errorEvent]

theorem countP_info_eventsFor (cfg : Config) (file : FileInfo) :
    (eventsFor cfg file).countP (fun e => decide (e.level = Level.InfoLevel)) = 1 := by
  unfold eventsFor
  cases isStale cfg file <;> simp [infoEvent, errorEvent, List.countP_cons]

theorem countP_error_eventsFor (cfg : Config) (file : FileInfo) :
    (eventsFor cfg file).countP (fun e => decide (e.level = Level.ErrorLevel))
      = if isStale cfg file = true then 1 else 0 := by
  unfold eventsFor
  cases isStale cfg file <;> simp [infoEvent, errorEvent, List.countP_cons]

/-- Claim C1: the scan loop reaches the `Error` call for an entry exactly when
`Age > maxAge` and not (`IsDir` and `ignoreFolders`); hence an entry with `Age ≤ maxAge`
is fresh, and a directory with `Age > maxAge` is stale exactly when `ignoreFolders` is
false. -/
theorem stale_iff_age_and_not_ignored (cfg : Config) (file : FileInfo) :
    (reachesError cfg file ↔
      (file.Age > cfg.maxAge ∧ ¬ (file.IsDir = true ∧ cfg.ignoreFolders = true))) ∧
    (file.Age ≤ cfg.maxAge → ¬ reachesError cfg file) ∧
    (file.IsDir = true → file.Age > cfg.maxAge →
      (reachesError cfg file ↔ cfg.ignoreFolders = false)) := by
  have key := (reachesError_iff_isStale cfg file).trans (isStale_iff cfg file)
  refine ⟨key, ?_, ?_⟩
  · intro hle hreach
    exact absurd (key.mp hreach).1 (Nat.not_lt.mpr hle)
  · intro hdir hage
    rw [key]
    cases h : cfg.ignoreFolders <;> simp [hdir, hage]

/-- Claim C2: over any list of collected entries the emission loop hands to the logger,
in order, one informational record per entry with `FullName`, `Mode` and `ModTime`, and
one error record with the same fields and the `ageWarning` label for each stale entry
and none for a fresh one; so `n` entries of which `k` are stale give `n` informational
and `k` error records, and a stale entry that is not a directory gets its one error
record whatever `ignoreFolders` is. -/
theorem emission_one_info_per_entry_one_error_per_stale (cfg : Config)
    (files : List FileInfo) :
    (emitAll cfg files).result = .ok () ∧
    (emitAll cfg files).trace = (files.flatMap (eventsFor cfg)).map Action.log ∧
    (∀ file, eventsFor cfg file =
      { level := Level.InfoLevel,
        fields := [("filename", FieldValue.str file.FullName),
          ("mode", FieldValue.str file.Mode), ("ModTime", FieldValue.time file.ModTime)],
        message := "" } ::
      (if file.Age > cfg.maxAge ∧ ¬ (file.IsDir = true ∧ cfg.ignoreFolders = true) then
        [{ level := Level.ErrorLevel,
           fields := [("filename", FieldValue.str file.FullName),
             ("mode", FieldValue.str file.Mode), ("ModTime", FieldValue.time file.ModTime)],
           message := cfg.ageWarning }]
      else [])) ∧
    (logEntries (emitAll cfg files).trace).countP (fun e => decide (e.level = Level.InfoLevel))
      = files.length ∧
    (logEntries (emitAll cfg files).trace).countP (fun e => decide (e.level = Level.ErrorLevel))
      = files.countP (fun file => decide (file.Age > cfg.maxAge) &&
          !(file.IsDir && cfg.ignoreFolders)) ∧
    (∀ file, file.IsDir = false → file.Age > cfg.maxAge →
      (logEntries (emitFile cfg file).trace).countP
        (fun e => decide (e.level = Level.ErrorLevel)) = 1) := by
  have hfor : ∀ file, eventsFor cfg file =
      { level := Level.InfoLevel,
        fields := [("filename", FieldValue.str file.FullName),
          ("mode", FieldValue.str file.Mode), ("ModTime", FieldValue.time file.ModTime)],
        message := "" } ::
      (if file.Age > cfg.maxAge ∧ ¬ (file.IsDir = true ∧ cfg.ignoreFolders = true) then
        [{ level := Level.ErrorLevel,
           fields := [("filename", FieldValue.str file.FullName),
             ("mode", FieldValue.str file.Mode), ("ModTime", FieldValue.time file.ModTime)],
           message := cfg.ageWarning }]
      else []) := by
    intro file
    unfold eventsFor
    by_cases h : isStale cfg file = true
    · rw [if_pos h, if_pos ((isStale_iff cfg file).mp h)]
      rfl
    · rw [if_neg h, if_neg (fun hs => h ((isStale_iff cfg file).mpr hs))]
      rfl
  refine ⟨by rw [emitAll_eq], by rw [emitAll_eq], hfor, ?_, ?_, ?_⟩
  · rw [emitAll_eq]
    simp only [logEntries_map_log]
    induction files with
    | nil => rfl
    | cons file rest ih =>
      rw [List.flatMap_cons, List.countP_append, ih, countP_info_eventsFor, List.length_cons]
      omega
  · rw [emitAll_eq]
    simp only [logEntries_map_log]
    induction files with
    | nil => rfl
    | cons file rest ih =>
      rw [List.flatMap_cons, List.countP_append, ih, countP_error_eventsFor,
        List.countP_cons]
      have hst : (decide (file.Age > cfg.maxAge) && !(file.IsDir && cfg.ignoreFolders))
          = isStale cfg file := rfl
      rw [hst]
      omega
  · intro file hdir hage
    rw [emitFile_eq]
    simp only [logEntries_map_log]
    have hs : isStale cfg file = true := by
      rw [isStale_iff]
      exact ⟨hage, by simp [hdir]⟩
    rw [countP_error_eventsFor, if_pos hs]

/-! ## The walks of one cycle -/

theorem visit_eq (files : List FileInfo) (c : WalkCall) :
    visit files c =
      match c.err with
      | some e => ⟨[.log (fatalEvent e)], .error (.exited 1)⟩
      | none => ⟨[], .ok (none, files ++ [mkFileInfo c])⟩ := by
  unfold visit
  cases c.err <;> simp [bind_eq, pure_eq, Proc.bind, Proc.pure, logFatal, fatalEvent]

theorem walkCalls_visit (calls : List WalkCall) (files : List FileInfo) :
    walkCalls visit calls files =
      match firstError calls with
      | some e => ⟨[.log (fatalEvent e)], .error (.exited 1)⟩
      | none => ⟨[], .ok (none, files ++ calls.map mkFileInfo)⟩ := by
  induction calls generalizing files with
  | nil => simp [walkCalls, firstError, pure_eq, Proc.pure]
  | cons c rest ih =>
    unfold walkCalls
    rw [visit_eq]
    cases hc : c.err with
    | some e => simp [firstError, hc, bind_eq, Proc.bind]
    | none =>
      have hfirst : firstError (c :: rest) = firstError rest := by
        simp [firstError, hc]
      simp only [bind_eq, Proc.bind, hfirst, ih]
      cases firstError rest <;> simp

theorem Walk_visit (root : String) (calls : List WalkCall) (files : List FileInfo) :
    Walk root calls visit files =
      match firstError calls with
      | some e => ⟨[.walk root, .log (fatalEvent e)], .error (.exited 1)⟩
      | none => ⟨[.walk root], .ok (none, files ++ calls.map mkFileInfo)⟩ := by
  unfold Walk
  rw [walkCalls_visit]
  cases firstError calls <;> simp [bind_eq, Proc.bind, act]

theorem firstError_eq_none (calls : List WalkCall) :
    firstError calls = none ↔ ∀ c ∈ calls, c.err = none := by
  simp [firstError]

theorem scanRoots_cons (env : CycleEnv) (i : Nat) (root : String) (rest : List String)
    (files : List FileInfo) :
    scanRoots env i (root :: rest) files =
      match firstError (env i root) with
      | some e => ⟨[.walk root, .log (fatalEvent e)], .error (.exited 1)⟩
      | none => Proc.bind ⟨[.walk root], .ok ()⟩
          (fun _ => scanRoots env (i + 1) rest (files ++ (env i root).map mkFileInfo)) := by
  rw [scanRoots, Walk_visit]
  cases firstError (env i root) <;> simp [bind_eq, Proc.bind, pure_eq, Proc.pure]

/-- When no call of any walk reports an error, the scan loop walks every root in order and
returns the concatenation of their entries after what was collected before. -/
theorem scanRoots_ok (env : CycleEnv) (folders : List String) (i : Nat)
    (files : List FileInfo)
    (h : ∀ k root, folders[k]? = some root → firstError (env (i + k) root) = none) :
    scanRoots env i folders files =
      ⟨folders.map Action.walk,
        .ok (files ++ (folders.enumFrom i).flatMap (fun p => (env p.1 p.2).map mkFileInfo))⟩ := by
  induction folders generalizing i files with
  | nil => simp [scanRoots, pure_eq, Proc.pure]
  | cons root rest ih =>
    have h0 : firstError (env i root) = none := by
      have := h 0 root (by simp)
      simpa using this
    have hrest : ∀ k r, rest[k]? = some r → firstError (env (i + 1 + k) r) = none := by
      intro k r hk
      have := h (k + 1) r (by simpa using hk)
      rw [show i + 1 + k = i + (k + 1) by omega]
      exact this
    rw [scanRoots_cons, h0]
    simp only []
    rw [ih (i + 1) _ hrest]
    simp [Proc.bind, List.enumFrom_cons, List.flatMap_cons, List.append_assoc]

/-- When some call of the walk of some root reports an error, the scan loop ends the
process with `os.Exit(1)` inside `visit`, at the first root with such a call: it has
walked the roots up to that one and has written the fatal record only. -/
theorem scanRoots_fail (env : CycleEnv) (folders : List String) (i : Nat)
    (files : List FileInfo) (k : Nat) (root : String)
    (hroot : folders[k]? = some root) (hfail : firstError (env (i + k) root) ≠ none) :
    ∃ j e, j ≤ k ∧
      scanRoots env i folders files =
        ⟨(folders.take (j + 1)).map Action.walk ++ [.log (fatalEvent e)],
          .error (.exited 1)⟩ := by
  induction folders generalizing i files k with
  | nil => simp at hroot
  | cons r rest ih =>
    rw [scanRoots_cons]
    cases hr : firstError (env i r) with
    | some e => exact ⟨0, e, Nat.zero_le _, by simp⟩
    | none =>
      cases k with
      | zero =>
        simp at hroot
        subst hroot
        exact absurd hr (by simpa using hfail)
      | succ k =>
        have hroot2 : rest[k]? = some root := by simpa using hroot
        have hfail2 : firstError (env (i + 1 + k) root) ≠ none := by
          rw [show i + 1 + k = i + (k + 1) by omega]
          exact hfail
        obtain ⟨j, e, hj, hscan⟩ := ih (i + 1) (files ++ (env i r).map mkFileInfo) k hroot2 hfail2
        refine ⟨j + 1, e, by omega, ?_⟩
        simp [Proc.bind, hscan]

/-- Every record written by the scan loop is the fatal record of `visit`, without fields:
the `Panic` call of the scan loop, with the fields `path` and `err`, is never reached. -/
theorem scanRoots_logs_only_fatal (env : CycleEnv) (folders : List String) (i : Nat)
    (files : List FileInfo) :
    ∀ e ∈ logEntries (scanRoots env i folders files).trace,
      e.level = Level.FatalLevel ∧ e.fields = [] := by
  induction folders generalizing i files with
  | nil => simp [scanRoots, pure_eq, Proc.pure, logEntries]
  | cons root rest ih =>
    rw [scanRoots_cons]
    cases hr : firstError (env i root) with
    | some msg => simp [logEntries, fatalEvent]
    | none =>
      intro e he
      apply ih (i + 1) (files ++ (env i root).map mkFileInfo) e
      simp only [Proc.bind] at he
      cases hres : (scanRoots env (i + 1) rest (files ++ (env i root).map mkFileInfo)).result <;>
        simpa [logEntries] using he

theorem walkEntries_eq (env : CycleEnv) (folders : List String) :
    walkEntries env folders =
      (folders.enumFrom 0).flatMap (fun p => (env p.1 p.2).map mkFileInfo) := rfl

theorem cycle_ok (cfg : Config) (env : CycleEnv) (folders : List String)
    (h : ∀ k root, folders[k]? = some root → ∀ c ∈ env k root, c.err = none) :
    cycle cfg env folders =
      ⟨folders.map Action.walk ++
        ((walkEntries env folders).flatMap (eventsFor cfg)).map Action.log ++
        [.sleep (sleepDuration cfg.poll)], .ok ()⟩ := by
  have h2 : ∀ k root, folders[k]? = some root → firstError (env (0 + k) root) = none := by
    intro k root hk
    rw [Nat.zero_add, firstError_eq_none]
    exact h k root hk
  unfold cycle
  rw [scanRoots_ok env folders 0 [] h2]
  simp [bind_eq, Proc.bind, emitAll_eq, act, walkEntries_eq]

theorem cycle_fail (cfg : Config) (env : CycleEnv) (folders : List String) (k : Nat)
    (root : String) (call : WalkCall)
    (hroot : folders[k]? = some root) (hcall : call ∈ env k root) (herr : call.err ≠ none) :
    ∃ j e, j ≤ k ∧
      cycle cfg env folders =
        ⟨(folders.take (j + 1)).map Action.walk ++ [.log (fatalEvent e)],
          .error (.exited 1)⟩ := by
  have hfail : firstError (env (0 + k) root) ≠ none := by
    rw [Nat.zero_add]
    intro hnone
    exact herr ((firstError_eq_none _).mp hnone call hcall)
  obtain ⟨j, e, hj, hscan⟩ := scanRoots_fail env folders 0 [] k root hroot hfail
  refine ⟨j, e, hj, ?_⟩
  unfold cycle
  rw [hscan]
  simp [bind_eq, Proc.bind]

/-- Claim C4: in a cycle in which the walk of some configured root calls `visit` with an
error, the process ends with `os.Exit(1)` at the first such call: whatever the number of
cycles the loop is allowed, its trace from that cycle on is the walks of the roots up
to the failing one followed by the fatal record alone, so no informational or error
record is written, no further root is walked, there is no sleep and no later cycle. -/
theorem walk_error_terminates_process (cfg : Config) (world : Nat → CycleEnv)
    (folders : List String) (fuel c k : Nat) (root : String) (call : WalkCall)
    (hroot : folders[k]? = some root) (hcall : call ∈ world c k root)
    (herr : call.err ≠ none) :
    ∃ j e, j ≤ k ∧
      pollLoop cfg world folders (fuel + 1) c =
        ⟨(folders.take (j + 1)).map Action.walk ++
          [.log { level := Level.FatalLevel, fields := [], message := e }],
          .error (.exited 1)⟩ := by
  obtain ⟨j, e, hj, hcycle⟩ := cycle_fail cfg (world c) folders k root call hroot hcall herr
  refine ⟨j, e, hj, ?_⟩
  unfold pollLoop
  rw [hcycle]
  simp [bind_eq, Proc.bind, fatalEvent]

/-- Claim C4 at a concrete run: three roots, the walk of the second one meets an unreadable
entry, and the loop is allowed three cycles. -/
theorem walk_error_terminates_process_witness :
    failingCall "/b/x" ∈ failingWorld 0 1 "/b" ∧
    ∃ j e, j ≤ 1 ∧
      pollLoop sampleConfig failingWorld ["/a", "/b", "/c"] (2 + 1) 0 =
        ⟨(["/a", "/b", "/c"].take (j + 1)).map Action.walk ++
          [.log { level := Level.FatalLevel, fields := [], message := e }],
          .error (.exited 1)⟩ :=
  ⟨by decide,
    walk_error_terminates_process sampleConfig failingWorld ["/a", "/b", "/c"] 2 0 1 "/b"
      (failingCall "/b/x") rfl (by decide) (by decide)⟩

/-! ## Start-up -/

theorem setLogLevel_eq (parse : String → Option Level) (cfg : Config) :
    setLogLevel parse cfg =
      match parse cfg.logLevel with
      | none => ⟨[.log ⟨.PanicLevel, [("logLevel", .str cfg.logLevel)], "Invalid log level!"⟩],
          .error (.panicked "Invalid log level!")⟩
      | some loglevel => ⟨[], .ok { Level := loglevel, Hooks := [] }⟩ := by
  unfold setLogLevel
  cases parse cfg.logLevel <;> simp [bind_eq, pure_eq, Proc.bind, Proc.pure, logPanic]

theorem addSlackHook_eq (parse : String → Option Level) (cfg : Config) (lg : Logger) :
    addSlackHook parse cfg lg =
      if cfg.slackWebhook = "" then ⟨[], .ok lg⟩
      else match parse cfg.slackWarnLevel with
        | none =>
          ⟨[.log ⟨.PanicLevel, [("slackWarnLevel", .str cfg.slackWarnLevel)],
              "Invalid log level!"⟩], .error (.panicked "Invalid log level!")⟩
        | some slacklevel =>
          ⟨[], .ok { lg with Hooks := lg.Hooks ++ [{ MinLevel := slacklevel }] }⟩ := by
  unfold addSlackHook
  by_cases hw : cfg.slackWebhook = ""
  · simp [hw, pure_eq, Proc.pure]
  · cases parse cfg.slackWarnLevel <;>
      simp [hw, bind_eq, pure_eq, Proc.bind, Proc.pure, logPanic]

theorem collectFolders_eq (cfg : Config) :
    collectFolders cfg =
      if cfg.args = [] ∧ cfg.folder = "" then
        ⟨[.log ⟨.PanicLevel, [], "No directory given!"⟩], .error (.panicked "No directory given!")⟩
      else ⟨[], .ok (cfg.args ++ (if cfg.folder ≠ "" then [cfg.folder] else []))⟩ := by
  unfold collectFolders
  by_cases ha : cfg.args = [] <;> by_cases hf : cfg.folder = "" <;>
    simp [ha, hf, bind_eq, pure_eq, Proc.bind, Proc.pure, logPanic]

theorem startup_eq (parse : String → Option Level) (cfg : Config) :
    startup parse cfg =
      match parse cfg.logLevel with
      | none => ⟨[.log ⟨.PanicLevel, [("logLevel", .str cfg.logLevel)], "Invalid log level!"⟩],
          .error (.panicked "Invalid log level!")⟩
      | some loglevel =>
        if cfg.slackWebhook = "" then
          if cfg.args = [] ∧ cfg.folder = "" then
            ⟨[.log ⟨.PanicLevel, [], "No directory given!"⟩],
              .error (.panicked "No directory given!")⟩
          else
            ⟨[], .ok ({ Level := loglevel, Hooks := [] },
              cfg.args ++ (if cfg.folder = "" then [] else [cfg.folder]))⟩
        else match parse cfg.slackWarnLevel with
          | none =>
            ⟨[.log ⟨.PanicLevel, [("slackWarnLevel", .str cfg.slackWarnLevel)],
                "Invalid log level!"⟩], .error (.panicked "Invalid log level!")⟩
          | some slacklevel =>
            if cfg.args = [] ∧ cfg.folder = "" then
              ⟨[.log ⟨.PanicLevel, [], "No directory given!"⟩],
                .error (.panicked "No directory given!")⟩
            else
              ⟨[], .ok ({ Level := loglevel, Hooks := [{ MinLevel := slacklevel }] },
                cfg.args ++ (if cfg.folder = "" then [] else [cfg.folder]))⟩ := by
  unfold startup
  rw [setLogLevel_eq]
  cases hl : parse cfg.logLevel with
  | none => simp [bind_eq, Proc.bind]
  | some l =>
    simp only [bind_eq, Proc.bind]
    rw [addSlackHook_eq, collectFolders_eq]
    by_cases hw : cfg.slackWebhook = ""
    · by_cases hr : cfg.args = [] ∧ cfg.folder = ""
      · simp [hw, hr, pure_eq, Proc.pure]
      · simp [hw, hr, pure_eq, Proc.pure]
    · cases hs : parse cfg.slackWarnLevel with
      | none => simp [hw]
      | some sl =>
        by_cases hr : cfg.args = [] ∧ cfg.folder = ""
        · simp [hw, hr, pure_eq, Proc.pure]
        · simp [hw, hr, pure_eq, Proc.pure]

theorem startup_ok_folders (parse : String → Option Level) (cfg : Config) (lg : Logger)
    (folders : List String) (h : (startup parse cfg).result = .ok (lg, folders)) :
    folders = cfg.args ++ (if cfg.folder = "" then [] else [cfg.folder]) := by
  rw [startup_eq] at h
  cases hl : parse cfg.logLevel with
  | none => simp [hl] at h
  | some l =>
    simp only [hl] at h
    by_cases hw : cfg.slackWebhook = ""
    · by_cases hr : cfg.args = [] ∧ cfg.folder = ""
      · simp [hw, hr] at h
      · simp [hw, hr] at h
        exact h.2.symm
    · cases hs : parse cfg.slackWarnLevel with
      | none => simp [hw, hs] at h
      | some sl =>
        by_cases hr : cfg.args = [] ∧ cfg.folder = ""
        · simp [hw, hs, hr] at h
        · simp [hw, hs, hr] at h
          exact h.2.symm

/-- Start-up never ends in `os.Exit` and never prints the usage text: each failure ends
in the panic of the logger call that precedes them. -/
theorem startup_never_exits (parse : String → Option Level) (cfg : Config) :
    Action.usage ∉ (startup parse cfg).trace ∧
    ∀ code, (startup parse cfg).result ≠ .error (.exited code) := by
  rw [startup_eq]
  cases parse cfg.logLevel with
  | none => simp
  | some l =>
    by_cases hw : cfg.slackWebhook = ""
    · by_cases hr : cfg.args = [] ∧ cfg.folder = "" <;> simp [hw, hr]
    · cases parse cfg.slackWarnLevel with
      | none => simp [hw]
      | some sl => by_cases hr : cfg.args = [] ∧ cfg.folder = "" <;> simp [hw, hr]

theorem walked_append (xs ys : List Action) :
    walked (xs ++ ys) = walked xs ++ walked ys := by
  induction xs with
  | nil => rfl
  | cons a rest ih => cases a <;> simp [walked, ih]

theorem walked_map_walk (roots : List String) : walked (roots.map Action.walk) = roots := by
  induction roots with
  | nil => rfl
  | cons r rest ih => simp [walked, ih]

theorem walked_map_log (es : List LogEntry) : walked (es.map Action.log) = [] := by
  induction es with
  | nil => rfl
  | cons e rest ih => simp [walked, ih]

theorem walked_map_stdout (f : String → String) (ps : List String) :
    walked (ps.map (fun p => Action.stdout (f p))) = [] := by
  induction ps with
  | nil => rfl
  | cons p rest ih => simp [walked, ih]

theorem walked_flatMap {α : Type} (f : α → List Action) (xs : List α) :
    walked (xs.flatMap f) = xs.flatMap (fun x => walked (f x)) := by
  induction xs with
  | nil => rfl
  | cons x rest ih => simp [List.flatMap_cons, walked_append, ih]

theorem banner_eq (folders : List String) :
    banner folders =
      ⟨folders.map (fun path => Action.stdout ("- " ++ path ++ " \n")), .ok ()⟩ := by
  induction folders with
  | nil => rfl
  | cons path rest ih => simp [banner, bind_eq, Proc.bind, act, ih]

theorem startup_ok (parse : String → Option Level) (cfg : Config) (lg : Logger)
    (folders : List String) (h : (startup parse cfg).result = .ok (lg, folders)) :
    startup parse cfg = ⟨[], .ok (lg, folders)⟩ := by
  have htrace : (startup parse cfg).trace = [] := by
    rw [startup_eq] at h ⊢
    cases hl : parse cfg.logLevel with
    | none => simp [hl] at h
    | some l =>
      simp only [hl] at h ⊢
      by_cases hw : cfg.slackWebhook = ""
      · by_cases hr : cfg.args = [] ∧ cfg.folder = ""
        · simp [hw, hr] at h
        · simp [hw, hr]
      · cases hs : parse cfg.slackWarnLevel with
        | none => simp [hw, hs] at h
        | some sl =>
          by_cases hr : cfg.args = [] ∧ cfg.folder = ""
          · simp [hw, hs, hr] at h
          · simp [hw, hr]
  cases hsu : startup parse cfg with
  | mk trace result =>
    rw [hsu] at h htrace
    simp only at h htrace
    rw [h, htrace]

/-- When no walk of the cycles `c, ..., c + n - 1` reports an error, the loop runs these
`n` cycles one after the other and is still running. -/
theorem pollLoop_ok (cfg : Config) (world : Nat → CycleEnv) (folders : List String)
    (n c : Nat)
    (h : ∀ i, i < n → ∀ k root, folders[k]? = some root →
      ∀ call ∈ world (c + i) k root, call.err = none) :
    pollLoop cfg world folders n c =
      ⟨(List.range n).flatMap (fun i =>
          folders.map Action.walk ++
          ((walkEntries (world (c + i)) folders).flatMap (eventsFor cfg)).map Action.log ++
          [.sleep (sleepDuration cfg.poll)]), .ok ()⟩ := by
  induction n generalizing c with
  | zero => rfl
  | succ n ih =>
    have h0 := h 0 (Nat.succ_pos n)
    have hrest : ∀ i, i < n → ∀ k root, folders[k]? = some root →
        ∀ call ∈ world (c + 1 + i) k root, call.err = none := by
      intro i hi k root hk
      have := h (i + 1) (Nat.succ_lt_succ hi) k root hk
      rw [show c + 1 + i = c + (i + 1) by omega]
      exact this
    rw [pollLoop, cycle_ok cfg (world c) folders h0, ih (c + 1) hrest]
    simp only [bind_eq, Proc.bind, List.range_succ_eq_map, List.flatMap_cons, List.flatMap_map,
      Nat.add_zero]
    congr 2
    apply List.flatMap_congr
    intro i _
    simp only [Function.comp, show c + 1 + i = c + (i + 1) by omega]

theorem logEntries_append (xs ys : List Action) :
    logEntries (xs ++ ys) = logEntries xs ++ logEntries ys := by
  induction xs with
  | nil => rfl
  | cons a rest ih => cases a <;> simp [logEntries, ih]

theorem logEntries_map_walk (roots : List String) :
    logEntries (roots.map Action.walk) = [] := by
  induction roots with
  | nil => rfl
  | cons r rest ih => simp [logEntries, ih]

theorem logEntries_map_stdout (f : String → String) (ps : List String) :
    logEntries (ps.map (fun p => Action.stdout (f p))) = [] := by
  induction ps with
  | nil => rfl
  | cons p rest ih => simp [logEntries, ih]

theorem logEntries_flatMap {α : Type} (f : α → List Action) (xs : List α) :
    logEntries (xs.flatMap f) = xs.flatMap (fun x => logEntries (f x)) := by
  induction xs with
  | nil => rfl
  | cons x rest ih => simp [List.flatMap_cons, logEntries_append, ih]

/-- Claim C6: when start-up succeeds, the roots are the positional arguments in order
followed by the `-directory` option when it is not empty; and when no walk of the first
`n` cycles reports an error, `main` prints the banner and then runs, for each of these
cycles in turn, the walks of the roots in that order, the records of the entries of each
root in the same order (the concatenation of what the walks of that cycle produced, and
nothing of an earlier cycle), and the sleep; the scan loop of each cycle starts from the
empty collection and ends with that concatenation. -/
theorem cycle_collects_roots_in_order (parse : String → Option Level) (cfg : Config)
    (lg : Logger) (folders : List String) (world : Nat → CycleEnv) (n : Nat)
    (hstart : (startup parse cfg).result = .ok (lg, folders))
    (hwalks : ∀ c, c < n → ∀ k root, folders[k]? = some root →
      ∀ call ∈ world c k root, call.err = none) :
    folders = cfg.args ++ (if cfg.folder = "" then [] else [cfg.folder]) ∧
    main parse cfg world n =
      ⟨[.stdout "Watching the following directories:\n"] ++
        folders.map (fun path => Action.stdout ("- " ++ path ++ " \n")) ++
        [.stdout "Press Ctrl+C to end\n"] ++
        (List.range n).flatMap (fun c =>
          folders.map Action.walk ++
          ((folders.enum.flatMap (fun p => ((world c) p.1 p.2).map mkFileInfo)).flatMap
            (eventsFor cfg)).map Action.log ++
          [.sleep (sleepDuration cfg.poll)]), .ok ()⟩ ∧
    walked (main parse cfg world n).trace =
      (List.range n).flatMap
        (fun _ => cfg.args ++ (if cfg.folder = "" then [] else [cfg.folder])) ∧
    logEntries (main parse cfg world n).trace =
      (List.range n).flatMap (fun c =>
        ((cfg.args ++ (if cfg.folder = "" then [] else [cfg.folder])).enum.flatMap
          (fun p => ((world c) p.1 p.2).map mkFileInfo)).flatMap (eventsFor cfg)) ∧
    (∀ c, c < n →
      scanRoots (world c) 0 folders [] =
        ⟨folders.map Action.walk,
          .ok (folders.enum.flatMap (fun p => ((world c) p.1 p.2).map mkFileInfo))⟩) := by
  have hfolders := startup_ok_folders parse cfg lg folders hstart
  have hloop : ∀ i, i < n → ∀ k root, folders[k]? = some root →
      ∀ call ∈ world (0 + i) k root, call.err = none := by
    intro i hi k root hk
    rw [Nat.zero_add]
    exact hwalks i hi k root hk
  have hmain : main parse cfg world n =
      ⟨[.stdout "Watching the following directories:\n"] ++
        folders.map (fun path => Action.stdout ("- " ++ path ++ " \n")) ++
        [.stdout "Press Ctrl+C to end\n"] ++
        (List.range n).flatMap (fun c =>
          folders.map Action.walk ++
          ((folders.enum.flatMap (fun p => ((world c) p.1 p.2).map mkFileInfo)).flatMap
            (eventsFor cfg)).map Action.log ++
          [.sleep (sleepDuration cfg.poll)]), .ok ()⟩ := by
    unfold main
    rw [startup_ok parse cfg lg folders hstart]
    simp only [bind_eq, Proc.bind]
    rw [banner_eq, pollLoop_ok cfg world folders n 0 hloop]
    simp [act, walkEntries]
  refine ⟨hfolders, hmain, ?_, ?_, ?_⟩
  · rw [hmain, ← hfolders]
    simp [walked_append, walked_flatMap, walked_map_walk, walked_map_log,
      walked_map_stdout, walked]
  · rw [hmain, ← hfolders]
    simp [logEntries_append, logEntries_flatMap, logEntries_map_walk, logEntries_map_log,
      logEntries_map_stdout, logEntries]
  · intro c hc
    have h2 : ∀ k root, folders[k]? = some root →
        firstError (world c (0 + k) root) = none := by
      intro k root hk
      rw [Nat.zero_add, firstError_eq_none]
      exact hwalks c hc k root hk
    rw [scanRoots_ok (world c) folders 0 [] h2]
    simp [List.enum]

/-- Claim C6 at a concrete run: the flags `/a /b -directory=/c` over a file system without
errors, for two cycles. -/
theorem cycle_collects_roots_in_order_witness :
    (startup ParseLevel threeRootConfig).result
      = .ok ({ Level := .InfoLevel, Hooks := [] }, ["/a", "/b", "/c"]) ∧
    (∀ c, c < 2 → ∀ k root, ["/a", "/b", "/c"][k]? = some root →
      ∀ call ∈ sampleWorld c k root, call.err = none) ∧
    (["/a", "/b", "/c"] =
      threeRootConfig.args ++
        (if threeRootConfig.folder = "" then [] else [threeRootConfig.folder]) ∧
    main ParseLevel threeRootConfig sampleWorld 2 =
      ⟨[.stdout "Watching the following directories:\n"] ++
        ["/a", "/b", "/c"].map (fun path => Action.stdout ("- " ++ path ++ " \n")) ++
        [.stdout "Press Ctrl+C to end\n"] ++
        (List.range 2).flatMap (fun c =>
          ["/a", "/b", "/c"].map Action.walk ++
          ((["/a", "/b", "/c"].enum.flatMap
            (fun p => ((sampleWorld c) p.1 p.2).map mkFileInfo)).flatMap
            (eventsFor threeRootConfig)).map Action.log ++
          [.sleep (sleepDuration threeRootConfig.poll)]), .ok ()⟩ ∧
    walked (main ParseLevel threeRootConfig sampleWorld 2).trace =
      (List.range 2).flatMap
        (fun _ => threeRootConfig.args ++
          (if threeRootConfig.folder = "" then [] else [threeRootConfig.folder])) ∧
    logEntries (main ParseLevel threeRootConfig sampleWorld 2).trace =
      (List.range 2).flatMap (fun c =>
        ((threeRootConfig.args ++
          (if threeRootConfig.folder = "" then [] else [threeRootConfig.folder])).enum.flatMap
          (fun p => ((sampleWorld c) p.1 p.2).map mkFileInfo)).flatMap
          (eventsFor threeRootConfig)) ∧
    (∀ c, c < 2 →
      scanRoots (sampleWorld c) 0 ["/a", "/b", "/c"] [] =
        ⟨["/a", "/b", "/c"].map Action.walk,
          .ok (["/a", "/b", "/c"].enum.flatMap
            (fun p => ((sampleWorld c) p.1 p.2).map mkFileInfo))⟩)) :=
  have hw : ∀ c, c < 2 → ∀ k root, ["/a", "/b", "/c"][k]? = some root →
      ∀ call ∈ sampleWorld c k root, call.err = none := by
    intro c _ k root _ call hcall
    simp only [sampleWorld, List.mem_cons, List.mem_singleton, List.not_mem_nil, or_false]
      at hcall
    rcases hcall with h | h <;> rw [h] <;> rfl
  ⟨rfl, hw,
    cycle_collects_roots_in_order ParseLevel threeRootConfig
      { Level := .InfoLevel, Hooks := [] } ["/a", "/b", "/c"] sampleWorld 2 rfl hw⟩

/-- Claim C8, amended: when `logLevel` is not a valid level name, or `slackWebhook` is
set and `slackWarnLevel` is not a valid level name, or no root is given (no positional
argument and an empty `-directory`), the process ends at start-up, by the panic of the
logger call, before `filepath.Walk` is called on any root. -/
theorem invalid_configuration_terminates_at_startup (parse : String → Option Level)
    (cfg : Config) (world : Nat → CycleEnv) (fuel : Nat)
    (h : parse cfg.logLevel = none ∨
      (cfg.slackWebhook ≠ "" ∧ parse cfg.slackWarnLevel = none) ∨
      (cfg.args = [] ∧ cfg.folder = "")) :
    ∃ msg, (main parse cfg world fuel).result = .error (.panicked msg) ∧
      walked (main parse cfg world fuel).trace = [] := by
  unfold main
  rw [startup_eq]
  cases hl : parse cfg.logLevel with
  | none =>
    exact ⟨"Invalid log level!", by simp [bind_eq, Proc.bind],
      by simp [bind_eq, Proc.bind, walked]⟩
  | some l =>
    by_cases hw : cfg.slackWebhook = ""
    · have hr : cfg.args = [] ∧ cfg.folder = "" := by
        rcases h with h | h | h
        · rw [hl] at h; cases h
        · exact absurd hw h.1
        · exact h
      exact ⟨"No directory given!", by simp [hw, hr, bind_eq, Proc.bind],
        by simp [hw, hr, bind_eq, Proc.bind, walked]⟩
    · cases hs : parse cfg.slackWarnLevel with
      | none =>
        exact ⟨"Invalid log level!", by simp [hw, bind_eq, Proc.bind],
          by simp [hw, bind_eq, Proc.bind, walked]⟩
      | some sl =>
        have hr : cfg.args = [] ∧ cfg.folder = "" := by
          rcases h with h | h | h
          · rw [hl] at h; cases h
          · rw [hs] at h; cases h.2
          · exact h
        exact ⟨"No directory given!", by simp [hw, hr, bind_eq, Proc.bind],
          by simp [hw, hr, bind_eq, Proc.bind, walked]⟩

/-- Claim C8, amended, at a concrete run: the level name `bogus` for `logLevel`. -/
theorem invalid_configuration_terminates_at_startup_witness :
    (ParseLevel ({ sampleConfig with logLevel := "bogus" } : Config).logLevel = none ∨
      (({ sampleConfig with logLevel := "bogus" } : Config).slackWebhook ≠ "" ∧
        ParseLevel ({ sampleConfig with logLevel := "bogus" } : Config).slackWarnLevel = none) ∨
      (({ sampleConfig with logLevel := "bogus" } : Config).args = [] ∧
        ({ sampleConfig with logLevel := "bogus" } : Config).folder = "")) ∧
    ∃ msg, (main ParseLevel { sampleConfig with logLevel := "bogus" } sampleWorld 3).result
        = .error (.panicked msg) ∧
      walked (main ParseLevel { sampleConfig with logLevel := "bogus" } sampleWorld 3).trace
        = [] :=
  ⟨Or.inl rfl,
    invalid_configuration_terminates_at_startup ParseLevel
      { sampleConfig with logLevel := "bogus" } sampleWorld 3 (Or.inl rfl)⟩

/-- Claim C8 as stated fails: with the default empty `slackWebhook` the string
`slackWarnLevel` is never parsed, so with the invalid level name `bogus` the process
starts, walks `/watch` and is still running after the first cycle. -/
theorem invalid_slackWarnLevel_without_webhook_is_not_checked :
    ParseLevel ({ sampleConfig with slackWarnLevel := "bogus" } : Config).slackWarnLevel = none ∧
    (main ParseLevel { sampleConfig with slackWarnLevel := "bogus" } sampleWorld 1).result
      = .ok () ∧
    walked (main ParseLevel { sampleConfig with slackWarnLevel := "bogus" } sampleWorld 1).trace
      = ["/watch"] := by
  refine ⟨rfl, rfl, rfl⟩

/-- Claim C9 on the failing inputs: with the level name `bogus` the process ends in the
panic raised by `Panic("Invalid log level!")`, and without any root in the panic raised
by `Panic("No directory given!")`; both runs end with the exit status of a Go panic, 2,
and not with 99 or 1.  For every configuration, `flag.Usage()` and `os.Exit` are not
reached during start-up. -/
theorem configuration_errors_panic_before_os_exit :
    (main ParseLevel { sampleConfig with logLevel := "bogus" } sampleWorld 1).result
      = .error (.panicked "Invalid log level!") ∧
    (main ParseLevel { sampleConfig with args := [] } sampleWorld 1).result
      = .error (.panicked "No directory given!") ∧
    (Outcome.panicked "Invalid log level!").status = 2 ∧
    (Outcome.panicked "No directory given!").status = 2 ∧
    (∀ (parse : String → Option Level) (cfg : Config),
      Action.usage ∉ (startup parse cfg).trace ∧
      ∀ code, (startup parse cfg).result ≠ .error (.exited code)) :=
  ⟨rfl, rfl, rfl, rfl, startup_never_exits⟩

/-- Claim C10 on the failing input: when the walk of `/b` meets an unreadable entry, the
record written before the process ends is the one of `log.Fatal(err)` in `visit`, at
fatal level and without any field, and the process ends with `os.Exit(1)`.  For every
file system, the scan loop writes no other kind of record: the one with the fields
`path` and `err` is never written. -/
theorem walk_error_record_has_no_path :
    cycle sampleConfig (failingWorld 0) ["/a", "/b"] =
      ⟨[.walk "/a", .walk "/b",
        .log { level := .FatalLevel, fields := [], message := "lstat /b/x: permission denied" }],
        .error (.exited 1)⟩ ∧
    (∀ (env : CycleEnv) (folders : List String) (i : Nat) (files : List FileInfo),
      ∀ e ∈ logEntries (scanRoots env i folders files).trace,
        e.level = Level.FatalLevel ∧ e.fields = []) :=
  ⟨rfl, scanRoots_logs_only_fatal⟩

/-- Claim C7, amended: for a poll interval of at most 9223372036 seconds the duration
`time.Duration(poll) * time.Second` handed to `time.Sleep` is exactly `poll * 10^9`
nanoseconds, and it is not negative. -/
theorem sleepDuration_exact (p : Nat) (h : p ≤ 9223372036) :
    sleepDuration p = (p : Int) * 1000000000 ∧ 0 ≤ sleepDuration p := by
  have h1 : wrapInt64 (Int.ofNat p) = (p : Int) := by
    unfold wrapInt64
    simp only [Int.ofNat_eq_coe]
    omega
  have h2 : wrapInt64 ((p : Int) * 1000000000) = (p : Int) * 1000000000 := by
    unfold wrapInt64
    omega
  unfold sleepDuration Second
  rw [h1, h2]
  constructor
  · rfl
  · omega

/-- Claim C7, amended, at the default poll interval of 60 seconds. -/
theorem sleepDuration_exact_witness :
    60 ≤ 9223372036 ∧ sleepDuration 60 = ((60 : Nat) : Int) * 1000000000 ∧ 0 ≤ sleepDuration 60 :=
  ⟨by decide, sleepDuration_exact 60 (by decide)⟩

/-- Claim C7 as stated fails: the uint64 value 9223372037 gives a product that wraps
around in int64 to a negative duration. -/
theorem sleepDuration_wraps :
    (9223372037 : Nat) < 2 ^ 64 ∧ sleepDuration 9223372037 = -9223372036709551616 ∧
    sleepDuration 9223372037 ≠ ((9223372037 : Nat) : Int) * 1000000000 ∧
    sleepDuration 9223372037 < 0 := by
  decide

/-! ## The arithmetic of `Age` -/

theorem roundHalfEven_ge (n d K : Nat) (hd : 0 < d) (h : K * d ≤ n) : K ≤ roundHalfEven n d := by
  have hq : K ≤ n / d := (Nat.le_div_iff_mul_le hd).mpr h
  unfold roundHalfEven
  simp only []
  split_ifs <;> omega

theorem roundHalfEven_le (n d K : Nat) (hd : 0 < d) (h : n ≤ K * d) : roundHalfEven n d ≤ K := by
  have hmod := Nat.div_add_mod n d
  have hr := Nat.mod_lt n hd
  have hqd : d * (n / d) ≤ K * d := by omega
  have hq : n / d ≤ K := by
    rw [Nat.mul_comm] at hqd
    exact Nat.le_of_mul_le_mul_right hqd hd
  rcases Nat.lt_or_ge (n / d) K with hlt | hge
  · unfold roundHalfEven
    simp only []
    split_ifs <;> omega
  · have hqK : n / d = K := by omega
    have hr0 : n % d = 0 := by
      rw [hqK, Nat.mul_comm] at hmod
      omega
    unfold roundHalfEven
    simp only [hr0]
    rw [if_pos (by omega)]
    exact hq

theorem roundHalfEven_lt (n d K : Nat) (hd : 0 < d) (h : 2 * n + d < 2 * (K * d)) :
    roundHalfEven n d < K := by
  have hmod := Nat.div_add_mod n d
  have hr := Nat.mod_lt n hd
  -- d * (q + 1) ≤ K * d  would follow; we show q + 1 ≤ K in the rounding-up cases
  unfold roundHalfEven
  simp only []
  by_cases h1 : 2 * (n % d) < d
  · rw [if_pos h1]
    by_contra hcon
    have hK : K ≤ n / d := by omega
    have : K * d ≤ n / d * d := Nat.mul_le_mul_right d hK
    rw [Nat.mul_comm (n / d) d] at this
    omega
  · rw [if_neg h1]
    have hup : n / d + 1 < K := by
      by_contra hcon
      have hK : K ≤ n / d + 1 := by omega
      have : K * d ≤ (n / d + 1) * d := Nat.mul_le_mul_right d hK
      rw [Nat.add_mul, Nat.mul_comm (n / d) d] at this
      omega
    split_ifs <;> omega

theorem roundHalfEven_one (n : Nat) : roundHalfEven n 1 = n := by
  unfold roundHalfEven
  simp [Nat.mod_one]

theorem upShift_spec (x : Frac) (fuel t0 : Nat) :
    t0 ≤ upShift x fuel t0 ∧
    (x.den * 2 ^ 52 ≤ x.num * 2 ^ (upShift x fuel t0) ∨ upShift x fuel t0 = t0 + fuel) := by
  induction fuel generalizing t0 with
  | zero => simp [upShift]
  | succ fuel ih =>
    unfold upShift
    by_cases h : x.den * 2 ^ 52 ≤ x.num * 2 ^ t0
    · rw [if_pos h]
      exact ⟨Nat.le_refl _, Or.inl h⟩
    · rw [if_neg h]
      obtain ⟨h1, h2⟩ := ih (t0 + 1)
      refine ⟨by omega, ?_⟩
      rcases h2 with h2 | h2
      · exact Or.inl h2
      · exact Or.inr (by omega)

/-- Below `2^53` rounding keeps a non-zero value on a grid of step `2^-t`. -/
theorem roundF64_small (x : Frac) (h0 : x.num ≠ 0) (h : x.num < x.den * 2 ^ 53) :
    roundF64 x =
      ⟨roundHalfEven (x.num * 2 ^ (upShift x 1074 0)) x.den, 2 ^ (upShift x 1074 0)⟩ := by
  unfold roundF64
  rw [if_neg h0, if_pos h]

/-- The number of fraction bits of a value below `2^e`, with `e ≤ 52`, is at least `52 - e + 1`. -/
theorem upShift_ge (x : Frac) (e : Nat) (he : e ≤ 53)
    (h : x.num < x.den * 2 ^ e) : 53 - e ≤ upShift x 1074 0 := by
  rcases (upShift_spec x 1074 0).2 with h2 | h2
  · by_contra hcon
    have hlt : upShift x 1074 0 + e ≤ 52 := by omega
    have hpow : 2 ^ (upShift x 1074 0 + e) ≤ 2 ^ 52 := Nat.pow_le_pow_right (by decide) hlt
    have h3 : x.num * 2 ^ (upShift x 1074 0) < x.den * 2 ^ e * 2 ^ (upShift x 1074 0) :=
      Nat.mul_lt_mul_of_pos_right h (Nat.two_pow_pos _)
    have h4 : x.den * 2 ^ e * 2 ^ (upShift x 1074 0) = x.den * 2 ^ (upShift x 1074 0 + e) := by
      rw [Nat.mul_assoc, ← Nat.pow_add, Nat.add_comm]
    have h5 : x.den * 2 ^ (upShift x 1074 0 + e) ≤ x.den * 2 ^ 52 :=
      Nat.mul_le_mul_left _ hpow
    omega
  · omega

theorem f64ofNat_exact (n : Nat) (h : n < 2 ^ 53) :
    (f64ofNat n).num = n * (f64ofNat n).den ∧ 0 < (f64ofNat n).den := by
  unfold f64ofNat
  by_cases h0 : n = 0
  · subst h0
    simp [roundF64]
  · rw [roundF64_small ⟨n, 1⟩ h0 (by simpa using h)]
    simp only [roundHalfEven_one]
    exact ⟨trivial, Nat.two_pow_pos _⟩

/-- The float64 quotient `float64(nsec)/1e9` of a nanosecond part is at most
`1 - 2^-30 - 2^-53`. -/
theorem fraction_le (nsec : Nat) (h : nsec < 1000000000) :
    0 < (f64div (f64ofNat nsec) (f64ofNat 1000000000)).den ∧
    (f64div (f64ofNat nsec) (f64ofNat 1000000000)).num * 2 ^ 53 ≤
      (2 ^ 53 - 2 ^ 23 - 1) * (f64div (f64ofNat nsec) (f64ofNat 1000000000)).den := by
  obtain ⟨ha, had⟩ := f64ofNat_exact nsec (by omega)
  obtain ⟨hb, hbd⟩ := f64ofNat_exact 1000000000 (by decide)
  generalize f64ofNat nsec = a at ha had
  generalize f64ofNat 1000000000 = b at hb hbd
  unfold f64div
  generalize hy : (⟨a.num * b.den, a.den * b.num⟩ : Frac) = y
  have hynum : y.num = nsec * (a.den * b.den) := by
    rw [← hy, ha]; simp only []; ring
  have hyden : y.den = 1000000000 * (a.den * b.den) := by
    rw [← hy, hb]; simp only []; ring
  have hP : 0 < a.den * b.den := Nat.mul_pos had hbd
  generalize a.den * b.den = P at hynum hyden hP
  by_cases h0 : y.num = 0
  · simp [roundF64, h0]
  · have hlt1 : y.num < y.den * 2 ^ 0 := by
      rw [hynum, hyden, Nat.pow_zero, Nat.mul_one]
      exact Nat.mul_lt_mul_of_pos_right h hP
    have hsmall : y.num < y.den * 2 ^ 53 := by
      have : y.den * 2 ^ 0 ≤ y.den * 2 ^ 53 :=
        Nat.mul_le_mul_left _ (Nat.pow_le_pow_right (by decide) (by decide))
      omega
    have ht : 53 - 0 ≤ upShift y 1074 0 := upShift_ge y 0 (by decide) hlt1
    rw [roundF64_small y h0 hsmall]
    obtain ⟨u, hu⟩ : ∃ u, upShift y 1074 0 = u + 53 := ⟨upShift y 1074 0 - 53, by omega⟩
    rw [hu]
    simp only []
    refine ⟨Nat.two_pow_pos _, ?_⟩
    have hyd : 0 < y.den := by rw [hyden]; exact Nat.mul_pos (by decide) hP
    have hkey : y.num * 2 ^ (u + 53) ≤ (2 ^ 53 - 2 ^ 23 - 1) * 2 ^ u * y.den := by
      rw [hynum, hyden, Nat.pow_add]
      have hc : nsec * 2 ^ 53 ≤ (2 ^ 53 - 2 ^ 23 - 1) * 1000000000 := by
        have : nsec ≤ 999999999 := by omega
        calc nsec * 2 ^ 53 ≤ 999999999 * 2 ^ 53 := Nat.mul_le_mul_right _ this
          _ ≤ (2 ^ 53 - 2 ^ 23 - 1) * 1000000000 := by decide
      calc nsec * P * (2 ^ u * 2 ^ 53) = nsec * 2 ^ 53 * (P * 2 ^ u) := by ring
        _ ≤ (2 ^ 53 - 2 ^ 23 - 1) * 1000000000 * (P * 2 ^ u) := Nat.mul_le_mul_right _ hc
        _ = (2 ^ 53 - 2 ^ 23 - 1) * 2 ^ u * (1000000000 * P) := by ring
    have hM := roundHalfEven_le _ _ _ hyd hkey
    calc roundHalfEven (y.num * 2 ^ (u + 53)) y.den * 2 ^ 53
        ≤ (2 ^ 53 - 2 ^ 23 - 1) * 2 ^ u * 2 ^ 53 := Nat.mul_le_mul_right _ hM
      _ = (2 ^ 53 - 2 ^ 23 - 1) * 2 ^ (u + 53) := by rw [Nat.pow_add]; ring

/-- The whole part of `Duration.Seconds` for a duration of `d` nanoseconds is the number
of whole seconds or one more, and it is the number of whole seconds below `2^24` s. -/
theorem trunc_Seconds (d : Nat) (hd : d < 2 ^ 63) :
    d / 1000000000 ≤ trunc (Seconds d) ∧ trunc (Seconds d) ≤ d / 1000000000 + 1 ∧
    (d / 1000000000 < 2 ^ 24 → trunc (Seconds d) = d / 1000000000) := by
  have hsec : d / 1000000000 < 2 ^ 53 := by
    have : d / 1000000000 ≤ d := Nat.div_le_self _ _
    have h63 : (2 : Nat) ^ 63 = 9223372036854775808 := by decide
    have h53 : (2 : Nat) ^ 53 = 9007199254740992 := by decide
    omega
  have hnsec : d % 1000000000 < 1000000000 := Nat.mod_lt _ (by decide)
  obtain ⟨hA, hAd⟩ := f64ofNat_exact (d / 1000000000) hsec
  obtain ⟨hFd, hF⟩ := fraction_le (d % 1000000000) hnsec
  unfold Seconds f64add
  generalize d / 1000000000 = sec at hsec hA hAd
  generalize f64ofNat sec = A at hA hAd
  generalize f64div (f64ofNat (d % 1000000000)) (f64ofNat 1000000000) = F at hFd hF
  generalize hz : (⟨A.num * F.den + F.num * A.den, A.den * F.den⟩ : Frac) = z
  have hznum : z.num = sec * (A.den * F.den) + F.num * A.den := by
    rw [← hz, hA]; simp only []; ring
  have hzden : z.den = A.den * F.den := by rw [← hz]
  have h53 : (2 : Nat) ^ 53 = 9007199254740992 := by decide
  have h23 : (2 : Nat) ^ 23 = 8388608 := by decide
  have h24 : (2 : Nat) ^ 24 = 16777216 := by decide
  rw [h53, h23] at hF
  -- the gap between the fraction and one
  obtain ⟨G, hG⟩ : ∃ G, F.num + G = F.den := ⟨F.den - F.num, by omega⟩
  have hGF : 8388609 * F.den ≤ G * 9007199254740992 := by omega
  have hGpos : 0 < G := by omega
  have hzd : 0 < z.den := by rw [hzden]; exact Nat.mul_pos hAd hFd
  have hgap : z.num + A.den * G = (sec + 1) * z.den := by
    rw [hznum, hzden, ← hG]; ring
  have hAG : 0 < A.den * G := Nat.mul_pos hAd hGpos
  have hlow : sec * z.den ≤ z.num := by
    rw [hznum, hzden]; exact Nat.le_add_right _ _
  have hup : z.num < (sec + 1) * z.den := by omega
  by_cases h0 : z.num = 0
  · have hs0 : sec = 0 := by
      rcases Nat.eq_zero_or_pos sec with h | h
      · exact h
      · have : 0 < sec * z.den := Nat.mul_pos h hzd
        omega
    subst hs0
    simp [roundF64, h0, trunc]
  · have hsmall : z.num < z.den * 2 ^ 53 := by
      have : (sec + 1) * z.den ≤ 2 ^ 53 * z.den := Nat.mul_le_mul_right _ (by omega)
      rw [Nat.mul_comm z.den]
      omega
    rw [roundF64_small z h0 hsmall]
    generalize ht : upShift z 1074 0 = t
    unfold trunc
    simp only []
    have hpos : 0 < 2 ^ t := Nat.two_pow_pos t
    have hL : sec * 2 ^ t ≤ roundHalfEven (z.num * 2 ^ t) z.den := by
      apply roundHalfEven_ge _ _ _ hzd
      calc sec * 2 ^ t * z.den = sec * z.den * 2 ^ t := by ring
        _ ≤ z.num * 2 ^ t := Nat.mul_le_mul_right _ hlow
    have hU : roundHalfEven (z.num * 2 ^ t) z.den ≤ (sec + 1) * 2 ^ t := by
      apply roundHalfEven_le _ _ _ hzd
      calc z.num * 2 ^ t ≤ (sec + 1) * z.den * 2 ^ t := Nat.mul_le_mul_right _ (Nat.le_of_lt hup)
        _ = (sec + 1) * 2 ^ t * z.den := by ring
    have hlo : sec ≤ roundHalfEven (z.num * 2 ^ t) z.den / 2 ^ t :=
      (Nat.le_div_iff_mul_le hpos).mpr hL
    have hhi : roundHalfEven (z.num * 2 ^ t) z.den / 2 ^ t ≤ sec + 1 := by
      apply Nat.div_le_of_le_mul
      rw [Nat.mul_comm (2 ^ t) (sec + 1)]
      exact hU
    refine ⟨hlo, hhi, ?_⟩
    intro hs24
    have hz24 : z.num < z.den * 2 ^ 24 := by
      have : (sec + 1) * z.den ≤ 2 ^ 24 * z.den := Nat.mul_le_mul_right _ (by omega)
      rw [Nat.mul_comm z.den]
      omega
    have ht29 : 53 - 24 ≤ upShift z 1074 0 := upShift_ge z 24 (by decide) hz24
    rw [ht] at ht29
    obtain ⟨v, hv⟩ : ∃ v, t = v + 29 := ⟨t - 29, by omega⟩
    have hlt : roundHalfEven (z.num * 2 ^ t) z.den < (sec + 1) * 2 ^ t := by
      apply roundHalfEven_lt _ _ _ hzd
      -- z.den < 2 * 2^t * (A.den * G)
      have hv1 : 1 ≤ 2 ^ v := Nat.two_pow_pos v
      have h29 : (2 : Nat) ^ 29 = 536870912 := by decide
      have hFG : F.den < 1073741824 * G := by omega
      have hden : z.den < 1073741824 * (A.den * G) := by
        rw [hzden]
        calc A.den * F.den < A.den * (1073741824 * G) := Nat.mul_lt_mul_of_pos_left hFG hAd
          _ = 1073741824 * (A.den * G) := by ring
      have hscale : 1073741824 * (A.den * G) ≤ 2 * 2 ^ t * (A.den * G) := by
        apply Nat.mul_le_mul_right
        rw [hv, Nat.pow_add, h29]
        omega
      have hexp : 2 * ((sec + 1) * 2 ^ t * z.den) =
          2 * (z.num * 2 ^ t) + 2 * 2 ^ t * (A.den * G) := by
        have hre : (sec + 1) * 2 ^ t * z.den = 2 ^ t * ((sec + 1) * z.den) := by ring
        rw [hre, ← hgap]; ring
      omega
    have hdivlt : roundHalfEven (z.num * 2 ^ t) z.den / 2 ^ t < sec + 1 := by
      rw [Nat.div_lt_iff_lt_mul hpos]
      exact hlt
    omega


theorem Sub_of_le (now modTime : Int) (h : modTime ≤ now) :
    Sub now modTime = min (now - modTime) (2 ^ 63 - 1) ∧ 0 ≤ Sub now modTime := by
  unfold Sub maxDuration minDuration
  have h63 : (2 : Int) ^ 63 = 9223372036854775808 := by decide
  rw [h63]
  refine ⟨?_, ?_⟩
  · rw [min_def]
    split_ifs <;> omega
  · split_ifs <;> omega

theorem ageSeconds_of_le (now modTime : Int) (outOfRange : Nat) (h : modTime ≤ now) :
    ageSeconds now modTime outOfRange =
      trunc (Seconds (min (now - modTime) (2 ^ 63 - 1)).toNat) := by
  obtain ⟨hS, hpos⟩ := Sub_of_le now modTime h
  unfold ageSeconds
  simp only []
  rw [if_pos hpos, ← hS]
  congr 2
  omega

/-- Claim C5, amended: for an entry whose `ModTime` is not after the current time, `visit`
stores as `Age` the whole part of the float64 `Duration.Seconds()` of the difference
`d = min (now - ModTime) (2^63 - 1)` nanoseconds; this is `floor(d / 10^9)` or one more, and
it is `floor(d / 10^9)` whenever that is below `2^24` seconds. -/
theorem visit_age_within_one_second (files : List FileInfo) (c : WalkCall)
    (herr : c.err = none) (hmod : c.info.ModTime ≤ c.now) :
    (visit files c).result = .ok (none, files ++ [mkFileInfo c]) ∧
    (mkFileInfo c).Age =
      trunc (Seconds (min (c.now - c.info.ModTime) (2 ^ 63 - 1)).toNat) ∧
    (min (c.now - c.info.ModTime) (2 ^ 63 - 1)).toNat / 1000000000 ≤ (mkFileInfo c).Age ∧
    (mkFileInfo c).Age ≤ (min (c.now - c.info.ModTime) (2 ^ 63 - 1)).toNat / 1000000000 + 1 ∧
    ((min (c.now - c.info.ModTime) (2 ^ 63 - 1)).toNat / 1000000000 < 2 ^ 24 →
      (mkFileInfo c).Age = (min (c.now - c.info.ModTime) (2 ^ 63 - 1)).toNat / 1000000000) := by
  have hage : (mkFileInfo c).Age =
      trunc (Seconds (min (c.now - c.info.ModTime) (2 ^ 63 - 1)).toNat) :=
    ageSeconds_of_le c.now c.info.ModTime c.outOfRange hmod
  have hd : (min (c.now - c.info.ModTime) (2 ^ 63 - 1)).toNat < 2 ^ 63 := by
    have : min (c.now - c.info.ModTime) (2 ^ 63 - 1) ≤ 2 ^ 63 - 1 := min_le_right _ _
    omega
  obtain ⟨h1, h2, h3⟩ := trunc_Seconds _ hd
  refine ⟨?_, hage, ?_, ?_, ?_⟩
  · rw [visit_eq, herr]
  · rw [hage]; exact h1
  · rw [hage]; exact h2
  · intro hlt
    rw [hage]; exact h3 hlt

/-- Claim C5, amended, at a concrete call: an entry modified 4000 seconds before the call. -/
theorem visit_age_within_one_second_witness :
    (sampleCall "/watch/a" "a" false).err = none ∧
    (sampleCall "/watch/a" "a" false).info.ModTime ≤ (sampleCall "/watch/a" "a" false).now ∧
    ((visit [] (sampleCall "/watch/a" "a" false)).result
        = .ok (none, [] ++ [mkFileInfo (sampleCall "/watch/a" "a" false)]) ∧
    (mkFileInfo (sampleCall "/watch/a" "a" false)).Age =
      trunc (Seconds (min ((sampleCall "/watch/a" "a" false).now
        - (sampleCall "/watch/a" "a" false).info.ModTime) (2 ^ 63 - 1)).toNat) ∧
    (min ((sampleCall "/watch/a" "a" false).now
        - (sampleCall "/watch/a" "a" false).info.ModTime) (2 ^ 63 - 1)).toNat / 1000000000
      ≤ (mkFileInfo (sampleCall "/watch/a" "a" false)).Age ∧
    (mkFileInfo (sampleCall "/watch/a" "a" false)).Age ≤
      (min ((sampleCall "/watch/a" "a" false).now
        - (sampleCall "/watch/a" "a" false).info.ModTime) (2 ^ 63 - 1)).toNat / 1000000000 + 1 ∧
    ((min ((sampleCall "/watch/a" "a" false).now
        - (sampleCall "/watch/a" "a" false).info.ModTime) (2 ^ 63 - 1)).toNat / 1000000000
        < 2 ^ 24 →
      (mkFileInfo (sampleCall "/watch/a" "a" false)).Age =
        (min ((sampleCall "/watch/a" "a" false).now
          - (sampleCall "/watch/a" "a" false).info.ModTime) (2 ^ 63 - 1)).toNat / 1000000000)) :=
  ⟨rfl, by decide,
    visit_age_within_one_second [] (sampleCall "/watch/a" "a" false) rfl (by decide)⟩

/-- Claim C5 as stated fails: 16777216.999999999 seconds after the modification the
float64 sum `16777216 + 0.999999999` rounds to `16777217`, so `Age` is 16777217 and
exceeds the 16777216 whole seconds that have elapsed. -/
theorem age_exceeds_elapsed_seconds :
    lateCall.info.ModTime ≤ lateCall.now ∧
    (lateCall.now - lateCall.info.ModTime) / 1000000000 = 16777216 ∧
    (visit [] lateCall).result = .ok (none, [mkFileInfo lateCall]) ∧
    (mkFileInfo lateCall).Age = 16777217 := by
  refine ⟨by decide, by decide, rfl, by decide⟩

/-- Claim C3, amended: after a successful start-up a record of level `l` handed to the
logger reaches the notification sink exactly when `slackWebhook` is not empty (the hook
is installed) and `l` is at or above both the notification minimum `slackWarnLevel` and
the display level `logLevel`; in particular with a notification minimum of `error` no
informational record is forwarded. -/
theorem forwarded_iff_hook_installed_and_both_gates (parse : String → Option Level)
    (cfg : Config) (lg : Logger) (folders : List String) (l : Level)
    (hstart : (startup parse cfg).result = .ok (lg, folders)) :
    (lg.forwards l = true ↔
      (cfg.slackWebhook ≠ "" ∧
        ∃ display slack, parse cfg.logLevel = some display ∧
          parse cfg.slackWarnLevel = some slack ∧
          l.toNat ≤ slack.toNat ∧ l.toNat ≤ display.toNat)) ∧
    (parse cfg.slackWarnLevel = some Level.ErrorLevel →
      lg.forwards Level.InfoLevel = false) := by
  rw [startup_eq] at hstart
  cases hl : parse cfg.logLevel with
  | none => simp [hl] at hstart
  | some display =>
    simp only [hl] at hstart
    by_cases hw : cfg.slackWebhook = ""
    · by_cases hr : cfg.args = [] ∧ cfg.folder = ""
      · simp [hw, hr] at hstart
      · simp [hw, hr] at hstart
        obtain ⟨hlg, _⟩ := hstart
        subst hlg
        simp [Logger.forwards, hw]
    · cases hs : parse cfg.slackWarnLevel with
      | none => simp [hw, hs] at hstart
      | some slack =>
        by_cases hr : cfg.args = [] ∧ cfg.folder = ""
        · simp [hw, hs, hr] at hstart
        · simp [hw, hs, hr] at hstart
          obtain ⟨hlg, _⟩ := hstart
          subst hlg
          constructor
          · simp [Logger.forwards, Logger.IsLevelEnabled, Hook.fires, Level.atLeast, hw]
            constructor
            · intro ⟨h1, h2⟩; exact ⟨h2, h1⟩
            · intro ⟨h1, h2⟩; exact ⟨h2, h1⟩
          · intro he
            cases he
            simp [Logger.forwards, Logger.IsLevelEnabled, Hook.fires, Level.atLeast,
              Level.toNat]

/-- Claim C3, amended, at a concrete run: the defaults with a webhook, and an error record. -/
theorem forwarded_iff_hook_installed_and_both_gates_witness :
    (startup ParseLevel { sampleConfig with slackWebhook := "https://hooks.example/x" }).result
      = .ok ({ Level := .InfoLevel, Hooks := [{ MinLevel := .ErrorLevel }] }, ["/watch"]) ∧
    ((Logger.forwards { Level := .InfoLevel, Hooks := [{ MinLevel := .ErrorLevel }] }
        Level.ErrorLevel = true ↔
      (({ sampleConfig with slackWebhook := "https://hooks.example/x" } : Config).slackWebhook
          ≠ "" ∧
        ∃ display slack,
          ParseLevel ({ sampleConfig with
            slackWebhook := "https://hooks.example/x" } : Config).logLevel = some display ∧
          ParseLevel ({ sampleConfig with
            slackWebhook := "https://hooks.example/x" } : Config).slackWarnLevel = some slack ∧
          Level.ErrorLevel.toNat ≤ slack.toNat ∧ Level.ErrorLevel.toNat ≤ display.toNat)) ∧
    (ParseLevel ({ sampleConfig with
        slackWebhook := "https://hooks.example/x" } : Config).slackWarnLevel
        = some Level.ErrorLevel →
      Logger.forwards { Level := .InfoLevel, Hooks := [{ MinLevel := .ErrorLevel }] }
        Level.InfoLevel = false)) :=
  ⟨rfl,
    forwarded_iff_hook_installed_and_both_gates ParseLevel
      { sampleConfig with slackWebhook := "https://hooks.example/x" }
      { Level := .InfoLevel, Hooks := [{ MinLevel := .ErrorLevel }] } ["/watch"]
      Level.ErrorLevel rfl⟩

/-- Claim C3 as stated fails: with the default configuration (`slackWarnLevel` is
`error`, `slackWebhook` is empty) no hook is installed, so an error record, which is at
the notification minimum, is not forwarded. -/
theorem error_event_not_forwarded_without_webhook :
    (startup ParseLevel sampleConfig).result
      = .ok ({ Level := .InfoLevel, Hooks := [] }, ["/watch"]) ∧
    ParseLevel sampleConfig.slackWarnLevel = some Level.ErrorLevel ∧
    Level.ErrorLevel.atLeast Level.ErrorLevel = true ∧
    Logger.forwards { Level := .InfoLevel, Hooks := [] } Level.ErrorLevel = false := by
  refine ⟨rfl, rfl, rfl, rfl⟩

end DirectoryWatcher
